import Mathlib

/-
Verification of the core of the idx-middleware repository: the in-memory
TTL storage engine (src/infrastructure/storage/in-memory-storage.impl.ts),
the nonce replay guard (nonce-check middleware and withNonceCheck), and the
middleware chain runner (middleware-runner.ts).

Modelling conventions:
  - A JavaScript Map is an insertion-ordered association list with unique
    keys: Map.set on a present key updates the value in place (keeping the
    position), on an absent key it appends at the end.
  - Time (Date.now()) is an explicit natural-number parameter; each source
    method reads the clock a bounded number of times and all reads within
    one method invocation are modelled as the same instant.
  - Every mutating method is a pure function returning its result, the
    post-state of the data map, and the list of emitted storage events, in
    emission order.  The onEvict and onExpire callbacks of the options
    record fire exactly alongside the evict and expire events, so only the
    events are modelled.
  - The event value field is heterogeneous in the source (set and evict
    events carry the stored item, expire events carry the unwrapped inner
    value); for the TTL store it is modelled as a sum type.
-/

set_option autoImplicit false

namespace IdxMiddleware

/-- The JavaScript String.prototype.startsWith primitive, modelled over
the character list so that it evaluates inside the kernel. -/
def jsStartsWith (s pre : String) : Bool :=
  pre.data.isPrefixOf s.data

/-- The JavaScript String.prototype.trim primitive: strip leading and
trailing whitespace. -/
def jsTrim (s : String) : String :=
  ⟨((s.data.dropWhile Char.isWhitespace).reverse.dropWhile Char.isWhitespace).reverse⟩

/- A JavaScript Map modelled as an insertion-ordered association list. -/
namespace JsMap

/-- Map.get: first (and, under the uniqueness invariant, only) binding. -/
def get {A : Type} (k : String) : List (String × A) → Option A
  | [] => none
  | (k', v) :: rest => if k' = k then some v else get k rest

/-- Map.set: update in place if the key is present, else append at the end. -/
def set {A : Type} (k : String) (v : A) : List (String × A) → List (String × A)
  | [] => [(k, v)]
  | (k', v') :: rest => if k' = k then (k, v) :: rest else (k', v') :: set k v rest

/-- Map.delete: remove the binding of the key, if any. -/
def delete {A : Type} (k : String) : List (String × A) → List (String × A)
  | [] => []
  | (k', v') :: rest => if k' = k then rest else (k', v') :: delete k rest

/-- Map.has. -/
def has {A : Type} (k : String) (d : List (String × A)) : Bool :=
  (get k d).isSome

end JsMap

/-- The StorageEventType union of storage.types.ts. -/
inductive StorageEventType where
  | set
  | delete
  | evict
  | expire
  | clear
deriving DecidableEq, Repr

/-- A StorageEvent as emitted to listeners: type, key, optional value,
timestamp.  P is the type of the value payload. -/
structure StorageEvent (P : Type) where
  type : StorageEventType
  key : String
  value : Option P
  timestamp : Nat
deriving DecidableEq, Repr

/-- The mutable state of an InMemoryStorage instance: the backing Map plus
the maxSize option (0 = unlimited).  The remaining options (defaultTTL,
cleanupInterval, autoCleanup, callbacks) only drive the cleanup timer and
the callback mirrors of the events and are not needed by the claims. -/
structure StoreState (A : Type) where
  maxSize : Nat
  data : List (String × A)
deriving DecidableEq, Repr

/- Methods of the base class InMemoryStorage<T> (stored type A).  P is the
event payload type and emb the injection of stored values into it (the
identity for a standalone base store). -/
namespace InMemoryStorage

variable {A P : Type}

/-- InMemoryStorage.set: if maxSize > 0, the store is full and the key is
new, evict the first-inserted entry (emitting an evict event), then insert
and emit a set event. -/
def set (emb : A → P) (s : StoreState A) (k : String) (v : A) (now : Nat) :
    StoreState A × List (StorageEvent P) :=
  if 0 < s.maxSize ∧ s.maxSize ≤ s.data.length ∧ JsMap.has k s.data = false then
    match s.data with
    | [] =>
        -- unreachable when the store is full: firstKey undefined, no evict
        ({ s with data := JsMap.set k v s.data },
         [⟨StorageEventType.set, k, some (emb v), now⟩])
    | (fk, fv) :: rest =>
        ({ s with data := JsMap.set k v rest },
         [⟨StorageEventType.evict, fk, some (emb fv), now⟩,
          ⟨StorageEventType.set, k, some (emb v), now⟩])
  else
    ({ s with data := JsMap.set k v s.data },
     [⟨StorageEventType.set, k, some (emb v), now⟩])

/-- InMemoryStorage.delete: remove and report existence; emit a delete
event (with no value) only if something was removed. -/
def delete (s : StoreState A) (k : String) (now : Nat) :
    Bool × StoreState A × List (StorageEvent P) :=
  if JsMap.has k s.data then
    (true, { s with data := JsMap.delete k s.data },
     [⟨StorageEventType.delete, k, none, now⟩])
  else
    (false, s, [])

/-- InMemoryStorage.has: a pure existence check on the backing Map; the
method body performs no write and emits nothing. -/
def has (s : StoreState A) (k : String) : Bool :=
  JsMap.has k s.data

/-- InMemoryStorage.getAll: snapshot of the stored values. -/
def getAll (s : StoreState A) : List A :=
  s.data.map Prod.snd

/-- InMemoryStorage.size. -/
def size (s : StoreState A) : Nat :=
  s.data.length

/-- InMemoryStorage.getOrCreate: if the key is absent, write the factory
value directly into the backing Map (this.data.set, not this.set), then
return the stored value.  No eviction is performed and no event is
emitted. -/
def getOrCreate (s : StoreState A) (k : String) (factoryValue : A) :
    A × StoreState A × List (StorageEvent P) :=
  match JsMap.get k s.data with
  | some v => (v, s, [])
  | none => (factoryValue, { s with data := JsMap.set k factoryValue s.data }, [])

end InMemoryStorage

/-- The ExpirableItem<T> wrapper of storage.interface.ts. -/
structure ExpirableItem (T : Type) where
  value : T
  expiresAt : Nat
deriving DecidableEq, Repr

/- Methods of the subclass InMemoryStorageWithTTL<V>: the backing map
stores ExpirableItem V.  Set and evict events carry the wrapped item
(Sum.inr), expire events carry the unwrapped value (Sum.inl). -/
namespace InMemoryStorageWithTTL

/-- Event payload of the TTL store: either an unwrapped value (expire
events) or a wrapped item (set and evict events). -/
abbrev Payload (V : Type) := Sum V (ExpirableItem V)

/-- State of a TTL store over value type V. -/
abbrev TTLState (V : Type) := StoreState (ExpirableItem V)

variable {V : Type}

/-- InMemoryStorageWithTTL.set: delegates to the base set. -/
def set (s : TTLState V) (k : String) (item : ExpirableItem V) (now : Nat) :
    TTLState V × List (StorageEvent (Payload V)) :=
  InMemoryStorage.set Sum.inr s k item now

/-- InMemoryStorageWithTTL.setWithTTL: wraps the value with
expiresAt = now + ttl and calls set. -/
def setWithTTL (s : TTLState V) (k : String) (v : V) (ttl now : Nat) :
    TTLState V × List (StorageEvent (Payload V)) :=
  set s k ⟨v, now + ttl⟩ now

/-- InMemoryStorageWithTTL.get: on a present but expired item, delete it
(emitting a delete event via this.delete), emit an expire event carrying
the unwrapped value, and report not found. -/
def get (s : TTLState V) (k : String) (now : Nat) :
    Option (ExpirableItem V) × TTLState V × List (StorageEvent (Payload V)) :=
  match JsMap.get k s.data with
  | none => (none, s, [])
  | some item =>
    if item.expiresAt ≤ now then
      let r := InMemoryStorage.delete (P := Payload V) s k now
      (none, r.2.1, r.2.2 ++ [⟨StorageEventType.expire, k, some (Sum.inl item.value), now⟩])
    else
      (some item, s, [])

/-- InMemoryStorageWithTTL.getValue: reads through this.get (the override
above); the body then re-checks expiry on the returned item, a branch that
is unreachable at a single instant because get never returns an expired
item. -/
def getValue (s : TTLState V) (k : String) (now : Nat) :
    Option V × TTLState V × List (StorageEvent (Payload V)) :=
  let r := get s k now
  match r.1 with
  | none => (none, r.2.1, r.2.2)
  | some item =>
    if item.expiresAt ≤ now then
      let r2 := InMemoryStorage.delete (P := Payload V) r.2.1 k now
      (none, r2.2.1,
       r.2.2 ++ r2.2.2 ++ [⟨StorageEventType.expire, k, some (Sum.inl item.value), now⟩])
    else
      (some item.value, r.2.1, r.2.2)

/-- The body of InMemoryStorageWithTTL.cleanup: scan the entries in
insertion order, removing each expired one directly from the backing Map
(this.data.delete) and emitting one expire event per removed entry; return
the surviving entries, the removed count, and the events in order. -/
def cleanupRun (now : Nat) :
    List (String × ExpirableItem V) →
    List (String × ExpirableItem V) × Nat × List (StorageEvent (Payload V))
  | [] => ([], 0, [])
  | (k, item) :: rest =>
    let r := cleanupRun now rest
    if item.expiresAt ≤ now then
      (r.1, r.2.1 + 1, ⟨StorageEventType.expire, k, some (Sum.inl item.value), now⟩ :: r.2.2)
    else
      ((k, item) :: r.1, r.2.1, r.2.2)

/-- InMemoryStorageWithTTL.cleanup. -/
def cleanup (s : TTLState V) (now : Nat) :
    Nat × TTLState V × List (StorageEvent (Payload V)) :=
  let r := cleanupRun now s.data
  (r.2.1, { s with data := r.1 }, r.2.2)

/-- InMemoryStorageWithTTL.getAll: the base snapshot filtered to the
unexpired items; the method deletes nothing and emits nothing. -/
def getAll (s : TTLState V) (now : Nat) : List (ExpirableItem V) :=
  (InMemoryStorage.getAll s).filter (fun item => decide (now < item.expiresAt))

end InMemoryStorageWithTTL

/-- The NonceMetadata record stored by the nonce guard. -/
structure NonceMetadata where
  timestamp : Nat
  path : String
  method : String
  ip : String
deriving DecidableEq, Repr

/-- The value type the nonce-check middleware actually passes to
setWithTTL at runtime: a pre-wrapped ExpirableItem around the metadata
(the declared interface type is the bare NonceMetadata, but the call site
passes the wrapper, so the backing map ends up double-wrapped). -/
abbrev NonceStoreVal := ExpirableItem NonceMetadata

/-- The runtime state of the nonce store. -/
abbrev NonceStoreState := InMemoryStorageWithTTL.TTLState NonceStoreVal

/-- Events emitted by the nonce store. -/
abbrev NonceEvent := StorageEvent (InMemoryStorageWithTTL.Payload NonceStoreVal)

/-- The typed error taxonomy of nonce-error.ts (MissingNonceError and
DuplicateNonceError, both extending AppError with an HTTP status). -/
inductive NonceError where
  | missingNonce
  | duplicateNonce (nonce : String)
deriving DecidableEq, Repr

/-- The HTTP status carried by each nonce error: MissingNonceError is
built with HttpStatus.BAD_REQUEST (400), DuplicateNonceError with
HttpStatus.UNPROCESSABLE_ENTITY (422), per config/constants.ts. -/
def NonceError.statusCode : NonceError → Nat
  | .missingNonce => 400
  | .duplicateNonce _ => 422

/-- The error message carried by each nonce error. -/
def NonceError.message : NonceError → String
  | .missingNonce => "X-Nonce header is required"
  | .duplicateNonce n => "Nonce already used: " ++ n

/-- What a run of the guard does before any downstream handler sees the
request: either it throws a typed nonce error (which propagates to the
outermost caller), or it defers to next() / the wrapped handler. -/
inductive GuardOutcome where
  | threw (e : NonceError)
  | next
deriving DecidableEq, Repr

/-- The request data the guard inspects: URL path, method, and the value
of the configured nonce header (none if the header is absent). -/
structure HttpRequest where
  path : String
  method : String
  nonceHeader : Option String
deriving DecidableEq, Repr

/-- The middleware returned by createNonceMiddleware (nonce-check
middleware): skip non-API paths; reject an absent or blank nonce with
MissingNonceError; reject a nonce already present in the store (checked
with has, which does not lazy-expire) with DuplicateNonceError, leaving
the store untouched; otherwise store the nonce via setWithTTL - passing a
pre-wrapped ExpirableItem as the value, exactly as the call site does -
and defer to next().  The ip argument is the resolved
server.requestIP address (or "unknown"). -/
def nonceCheckMiddleware (ttl : Nat) (req : HttpRequest) (ip : String) (now : Nat)
    (s : NonceStoreState) : GuardOutcome × NonceStoreState × List NonceEvent :=
  if !jsStartsWith req.path "/api" then
    (GuardOutcome.next, s, [])
  else
    match req.nonceHeader with
    | none => (GuardOutcome.threw NonceError.missingNonce, s, [])
    | some nonce =>
      if jsTrim nonce = "" then
        (GuardOutcome.threw NonceError.missingNonce, s, [])
      else if InMemoryStorage.has s nonce then
        (GuardOutcome.threw (NonceError.duplicateNonce nonce), s, [])
      else
        let metadata : NonceMetadata := ⟨now, req.path, req.method, ip⟩
        let r := InMemoryStorageWithTTL.setWithTTL s nonce ⟨metadata, now + ttl⟩ ttl now
        (GuardOutcome.next, r.1, r.2)

/-- The guard inside withNonceCheck (nonce-middleware.ts): identical
checks, but the skip rule is the health path instead of the API prefix,
and on success (or skip) the wrapped handler is invoked. -/
def withNonceCheck (ttl : Nat) (req : HttpRequest) (ip : String) (now : Nat)
    (s : NonceStoreState) : GuardOutcome × NonceStoreState × List NonceEvent :=
  if req.path = "/health" then
    (GuardOutcome.next, s, [])
  else
    match req.nonceHeader with
    | none => (GuardOutcome.threw NonceError.missingNonce, s, [])
    | some nonce =>
      if jsTrim nonce = "" then
        (GuardOutcome.threw NonceError.missingNonce, s, [])
      else if InMemoryStorage.has s nonce then
        (GuardOutcome.threw (NonceError.duplicateNonce nonce), s, [])
      else
        let metadata : NonceMetadata := ⟨now, req.path, req.method, ip⟩
        let r := InMemoryStorageWithTTL.setWithTTL s nonce ⟨metadata, now + ttl⟩ ttl now
        (GuardOutcome.next, r.1, r.2)

/-- The response dispatched by the fetch handler of createServer
(middleware-chain variant): the health JSON (status ok with the
request-time timestamp), a response produced by the middleware chain, or
the plain 404. -/
inductive ServeResp (R : Type) where
  | healthJson (now : Nat)
  | api (r : R)
  | notFoundResp
deriving DecidableEq, Repr

/-- The fetch handler of createServer: answer the health path first
(before any middleware and before the nonce store can be consulted), run
the middleware chain for API-prefixed paths, and return 404 otherwise.
The chain argument abstracts the composed middleware chain, threading the
nonce store state. -/
def serverFetch {R : Type} (req : HttpRequest) (now : Nat) (s : NonceStoreState)
    (chain : NonceStoreState → R × NonceStoreState) : ServeResp R × NonceStoreState :=
  if req.path = "/health" then
    (ServeResp.healthJson now, s)
  else if jsStartsWith req.path "/api" then
    let r := chain s
    (ServeResp.api r.1, r.2)
  else
    (ServeResp.notFoundResp, s)

/- The middleware chain runner of middleware-runner.ts.  Middleware
effects are modelled in a state-and-exception monad written out
explicitly: a computation takes the state and returns either a thrown
error or a response paired with the new state. -/

/-- The Middleware type of middleware-runner.ts: receives the request, the
server context and next(), and produces a response computation. -/
def Middleware (Req Ctx St Err Res : Type) : Type :=
  Req → Ctx → (Unit → St → Except Err (Res × St)) → St → Except Err (Res × St)

/-- The dispatch closure of createMiddlewareChain: dispatch at index i is
dispatch on the suffix of the middleware list from i; past the end it
calls the final handler, otherwise it calls the current middleware with
next() = dispatch on the rest. -/
def dispatch {Req Ctx St Err Res : Type}
    (finalHandler : Req → Ctx → St → Except Err (Res × St)) (req : Req) (ctx : Ctx) :
    List (Middleware Req Ctx St Err Res) → St → Except Err (Res × St)
  | [], st => finalHandler req ctx st
  | m :: rest, st => m req ctx (fun _ => dispatch finalHandler req ctx rest) st

/-- createMiddlewareChain: run the middleware list in order, starting at
index 0, ending at the final handler. -/
def createMiddlewareChain {Req Ctx St Err Res : Type}
    (middlewares : List (Middleware Req Ctx St Err Res))
    (finalHandler : Req → Ctx → St → Except Err (Res × St)) :
    Req → Ctx → St → Except Err (Res × St) :=
  fun req ctx st => dispatch finalHandler req ctx middlewares st

/- Instrumented middlewares used to state the chain-ordering claim: the
state is a trace of who ran, in order. -/

/-- A middleware that returns a response without calling next(),
recording that it ran. -/
def shortCircuitMw {Req Ctx Err Res : Type} (resp : Res) (name : String) :
    Middleware Req Ctx (List String) Err Res :=
  fun _req _ctx _next trace => Except.ok (resp, trace ++ [name])

/-- A middleware that records itself (label name), calls next(),
transforms the downstream response, and records its post-processing step
(label post). -/
def passThroughMw {Req Ctx Err Res : Type} (name post : String) (transform : Res → Res) :
    Middleware Req Ctx (List String) Err Res :=
  fun _req _ctx next trace =>
    match next () (trace ++ [name]) with
    | Except.error e => Except.error e
    | Except.ok (r, trace2) => Except.ok (transform r, trace2 ++ [post])

/-- A middleware that throws. -/
def throwingMw {Req Ctx Err Res : Type} (e : Err) :
    Middleware Req Ctx (List String) Err Res :=
  fun _req _ctx _next _trace => Except.error e

/-- A terminal handler that returns a response, recording that it ran. -/
def terminalOk {Req Ctx Err Res : Type} (resp : Res) (name : String) :
    Req → Ctx → List String → Except Err (Res × List String) :=
  fun _req _ctx trace => Except.ok (resp, trace ++ [name])

/-- A terminal handler that throws. -/
def terminalThrow {Req Ctx Err Res : Type} (e : Err) :
    Req → Ctx → List String → Except Err (Res × List String) :=
  fun _req _ctx _trace => Except.error e

/- Helper lemmas about the JsMap model. -/

namespace JsMap

variable {A : Type}

theorem get_set_self (k : String) (v : A) (d : List (String × A)) :
    get k (set k v d) = some v := by
  induction d with
  | nil => simp [get, set]
  | cons p rest ih =>
    obtain ⟨k', v'⟩ := p
    by_cases h : k' = k
    · simp [get, set, h]
    · simp [get, set, h, ih]

theorem set_of_get_none (k : String) (v : A) (d : List (String × A))
    (h : get k d = none) : set k v d = d ++ [(k, v)] := by
  induction d with
  | nil => simp [set]
  | cons p rest ih =>
    obtain ⟨k', v'⟩ := p
    by_cases hk : k' = k
    · simp [get, hk] at h
    · simp [get, hk] at h
      simp [set, hk, ih h]

theorem get_eq_none_iff (k : String) (d : List (String × A)) :
    get k d = none ↔ k ∉ d.map Prod.fst := by
  induction d with
  | nil => simp [get]
  | cons p rest ih =>
    obtain ⟨k', v'⟩ := p
    by_cases hk : k' = k
    · simp [get, hk]
    · simp [get, hk, ih, Ne.symm hk]

theorem mem_of_get_eq_some {k : String} {v : A} {d : List (String × A)}
    (h : get k d = some v) : (k, v) ∈ d := by
  induction d with
  | nil => simp [get] at h
  | cons p rest ih =>
    obtain ⟨k', v'⟩ := p
    by_cases hk : k' = k
    · simp [get, hk] at h
      simp [hk, h]
    · simp [get, hk] at h
      simp [ih h]

theorem get_eq_of_mem {k : String} {v : A} {d : List (String × A)}
    (hnd : (d.map Prod.fst).Nodup) (h : (k, v) ∈ d) : get k d = some v := by
  induction d with
  | nil => simp at h
  | cons p rest ih =>
    obtain ⟨k', v'⟩ := p
    simp only [List.map_cons, List.nodup_cons] at hnd
    rcases List.mem_cons.mp h with h1 | h1
    · obtain ⟨hk, hv⟩ := Prod.mk.injEq .. ▸ h1.symm
      simp [get, hk.symm, hv]
    · by_cases hk : k' = k
      · exfalso
        apply hnd.1
        subst hk
        exact List.mem_map_of_mem Prod.fst h1
      · simp [get, hk, ih hnd.2 h1]

theorem keys_set_of_get_some {k : String} {w : A} (v : A) {d : List (String × A)}
    (h : get k d = some w) : (set k v d).map Prod.fst = d.map Prod.fst := by
  induction d with
  | nil => simp [get] at h
  | cons p rest ih =>
    obtain ⟨k', v'⟩ := p
    by_cases hk : k' = k
    · simp [set, hk]
    · simp [get, hk] at h
      simp [set, hk, ih h]

theorem nodup_keys_set {d : List (String × A)} (k : String) (v : A)
    (hnd : (d.map Prod.fst).Nodup) : ((set k v d).map Prod.fst).Nodup := by
  cases h : get k d with
  | none =>
      rw [set_of_get_none k v d h]
      have hk : k ∉ d.map Prod.fst := (get_eq_none_iff k d).mp h
      simp [List.nodup_append, hnd, hk]
  | some w =>
      rw [keys_set_of_get_some v h]
      exact hnd

theorem keys_delete_sublist (k : String) (d : List (String × A)) :
    ((delete k d).map Prod.fst).Sublist (d.map Prod.fst) := by
  induction d with
  | nil => simp [delete]
  | cons p rest ih =>
    obtain ⟨k', v'⟩ := p
    by_cases hk : k' = k
    · simp [delete, hk]
    · simp [delete, hk]
      exact ih

theorem nodup_keys_delete {d : List (String × A)} (k : String)
    (hnd : (d.map Prod.fst).Nodup) : ((delete k d).map Prod.fst).Nodup :=
  hnd.sublist (keys_delete_sublist k d)

theorem get_delete_self {d : List (String × A)} (k : String)
    (hnd : (d.map Prod.fst).Nodup) : get k (delete k d) = none := by
  induction d with
  | nil => simp [delete, get]
  | cons p rest ih =>
    obtain ⟨k', v'⟩ := p
    simp only [List.map_cons, List.nodup_cons] at hnd
    by_cases hk : k' = k
    · simp [delete, hk]
      rw [get_eq_none_iff]
      subst hk
      exact hnd.1
    · simp [delete, get, hk, ih hnd.2]

end JsMap

/-- After a base-store set, the just-set key maps to the just-set value,
whichever branch (eviction or not) was taken. -/
theorem InMemoryStorage.set_get_self {A P : Type} (emb : A → P) (s : StoreState A)
    (k : String) (v : A) (now : Nat) :
    JsMap.get k ((InMemoryStorage.set emb s k v now).1.data) = some v := by
  rw [InMemoryStorage.set]
  split
  · split
    · exact JsMap.get_set_self k v _
    · exact JsMap.get_set_self k v _
  · exact JsMap.get_set_self k v _

/-- A base-store set preserves the key-uniqueness invariant of the
backing map. -/
theorem InMemoryStorage.set_nodup {A P : Type} (emb : A → P) (s : StoreState A)
    (k : String) (v : A) (now : Nat) (hnd : (s.data.map Prod.fst).Nodup) :
    (((InMemoryStorage.set emb s k v now).1.data).map Prod.fst).Nodup := by
  rw [InMemoryStorage.set]
  split
  · split
    · exact JsMap.nodup_keys_set k v hnd
    · rename_i heq
      apply JsMap.nodup_keys_set
      rw [heq] at hnd
      simp only [List.map_cons, List.nodup_cons] at hnd
      exact hnd.2
  · exact JsMap.nodup_keys_set k v hnd

/-- Closed form of the cleanup scan: the surviving entries are the
unexpired ones, the count is the number of expired entries, and exactly
one expire event (and nothing else) is emitted per expired entry, in
insertion order. -/
theorem InMemoryStorageWithTTL.cleanupRun_eq {V : Type} (now : Nat)
    (d : List (String × ExpirableItem V)) :
    InMemoryStorageWithTTL.cleanupRun now d =
      (d.filter (fun p => decide (now < p.2.expiresAt)),
       (d.filter (fun p => decide (p.2.expiresAt ≤ now))).length,
       (d.filter (fun p => decide (p.2.expiresAt ≤ now))).map
         (fun p => ⟨StorageEventType.expire, p.1, some (Sum.inl p.2.value), now⟩)) := by
  induction d with
  | nil => rfl
  | cons p rest ih =>
    obtain ⟨k, item⟩ := p
    by_cases h : item.expiresAt ≤ now
    · simp [InMemoryStorageWithTTL.cleanupRun, ih, h, Nat.not_lt.mpr h]
    · simp [InMemoryStorageWithTTL.cleanupRun, ih, h, Nat.lt_of_not_le h]

/-- C4: FIFO eviction: for a store with maxSize = k > 0 holding k
entries, set with a key not already present first evicts exactly the
oldest-inserted (first) entry and fires an evict event with that key and
value, then appends the new entry and fires a set event; set with an
already-present key overwrites in place, firing only the set event. -/
theorem fifo_eviction_set {A : Type} (s : StoreState A) (k fk k2 : String) (v fv v2 w : A)
    (rest : List (String × A)) (now : Nat)
    (hmax : 0 < s.maxSize) (hfull : s.data.length = s.maxSize)
    (hdata : s.data = (fk, fv) :: rest)
    (hnew : JsMap.get k s.data = none)
    (hold : JsMap.get k2 s.data = some w) :
    InMemoryStorage.set id s k v now
      = ({ s with data := rest ++ [(k, v)] },
         [⟨StorageEventType.evict, fk, some fv, now⟩,
          ⟨StorageEventType.set, k, some v, now⟩])
    ∧ InMemoryStorage.set id s k2 v2 now
      = ({ s with data := JsMap.set k2 v2 s.data },
         [⟨StorageEventType.set, k2, some v2, now⟩])
    ∧ JsMap.get k2 (JsMap.set k2 v2 s.data) = some v2 := by
  have hrest : JsMap.get k rest = none := by
    rw [hdata] at hnew
    by_cases hfk : fk = k
    · simp [JsMap.get, hfk] at hnew
    · simpa [JsMap.get, hfk] using hnew
  refine ⟨?_, ?_, JsMap.get_set_self k2 v2 s.data⟩
  · have hcond : 0 < s.maxSize ∧ s.maxSize ≤ s.data.length ∧ JsMap.has k s.data = false :=
      ⟨hmax, hfull.symm.le, by simp [JsMap.has, hnew]⟩
    rw [InMemoryStorage.set, if_pos hcond, hdata]
    simp [JsMap.set_of_get_none k v rest hrest]
  · have hcond : ¬ (0 < s.maxSize ∧ s.maxSize ≤ s.data.length ∧ JsMap.has k2 s.data = false) := by
      simp [JsMap.has, hold]
    rw [InMemoryStorage.set, if_neg hcond]
    simp

/-- Witness for fifo_eviction_set at a concrete bounded store of
maxSize 2 holding keys a and b: inserting c evicts a. -/
theorem fifo_eviction_set_witness :
    (0 < (2 : Nat) ∧ ([("a", 1), ("b", 2)] : List (String × Nat)).length = 2
      ∧ JsMap.get "c" [("a", (1 : Nat)), ("b", 2)] = none
      ∧ JsMap.get "b" [("a", (1 : Nat)), ("b", 2)] = some 2)
    ∧ (InMemoryStorage.set id (StoreState.mk 2 [("a", (1 : Nat)), ("b", 2)]) "c" 3 7
        = (StoreState.mk 2 [("b", 2), ("c", 3)],
           [⟨StorageEventType.evict, "a", some 1, 7⟩,
            ⟨StorageEventType.set, "c", some 3, 7⟩])
      ∧ InMemoryStorage.set id (StoreState.mk 2 [("a", (1 : Nat)), ("b", 2)]) "b" 9 7
        = (StoreState.mk 2 (JsMap.set "b" 9 [("a", 1), ("b", 2)]),
           [⟨StorageEventType.set, "b", some 9, 7⟩])
      ∧ JsMap.get "b" (JsMap.set "b" 9 [("a", (1 : Nat)), ("b", 2)]) = some 9) :=
  ⟨⟨by decide, by decide, by decide, by decide⟩,
   fifo_eviction_set (StoreState.mk 2 [("a", 1), ("b", 2)]) "c" "a" "b" 3 1 9 2
     [("b", 2)] 7 (by decide) (by decide) (by decide) (by decide) (by decide)⟩

/-- C9: getOrCreate does not preserve the maxSize bound that set
enforces: on a full bounded store and an absent key, it writes the
factory value directly into the backing map, with no eviction and no
events, growing the store to maxSize + 1 entries. -/
theorem getOrCreate_violates_maxSize {A : Type} (s : StoreState A) (k : String) (fv : A)
    (hmax : 0 < s.maxSize) (hfull : s.data.length = s.maxSize)
    (habs : JsMap.get k s.data = none) :
    InMemoryStorage.getOrCreate (P := A) s k fv
      = (fv, { s with data := s.data ++ [(k, fv)] }, [])
    ∧ (InMemoryStorage.getOrCreate (P := A) s k fv).2.1.data.length = s.maxSize + 1 := by
  have h1 : InMemoryStorage.getOrCreate (P := A) s k fv
      = (fv, { s with data := s.data ++ [(k, fv)] }, []) := by
    rw [InMemoryStorage.getOrCreate, habs, JsMap.set_of_get_none k fv s.data habs]
  refine ⟨h1, ?_⟩
  rw [h1]
  simp [hfull]

/-- Witness for getOrCreate_violates_maxSize at a concrete full store of
maxSize 2: the factory value is stored as a third entry. -/
theorem getOrCreate_violates_maxSize_witness :
    (0 < (2 : Nat) ∧ ([("a", 1), ("b", 2)] : List (String × Nat)).length = 2
      ∧ JsMap.get "c" [("a", (1 : Nat)), ("b", 2)] = none)
    ∧ (InMemoryStorage.getOrCreate (P := Nat) (StoreState.mk 2 [("a", 1), ("b", 2)]) "c" 9
        = (9, StoreState.mk 2 [("a", 1), ("b", 2), ("c", 9)], [])
      ∧ (InMemoryStorage.getOrCreate (P := Nat)
          (StoreState.mk 2 [("a", 1), ("b", 2)]) "c" 9).2.1.data.length = 2 + 1) :=
  ⟨⟨by decide, by decide, by decide⟩,
   getOrCreate_violates_maxSize (StoreState.mk 2 [("a", 1), ("b", 2)]) "c" 9
     (by decide) (by decide) (by decide)⟩

/-- C6: read-only views of an expired-but-not-yet-swept entry: has still
reports true (it does not lazy-expire), while getAll filters the entry
out of its snapshot; both methods only read the backing map, so the store
contents are unchanged by either call (in this embedding both are pure
functions of the state). -/
theorem has_and_getAll_on_expired_entry {V : Type} (s : InMemoryStorageWithTTL.TTLState V)
    (k : String) (item : ExpirableItem V) (now : Nat)
    (hget : JsMap.get k s.data = some item)
    (hexp : item.expiresAt ≤ now) :
    InMemoryStorage.has s k = true
    ∧ item ∉ InMemoryStorageWithTTL.getAll s now
    ∧ (k, item) ∈ s.data := by
  refine ⟨by simp [InMemoryStorage.has, JsMap.has, hget], ?_, JsMap.mem_of_get_eq_some hget⟩
  intro hmem
  rw [InMemoryStorageWithTTL.getAll, InMemoryStorage.getAll, List.mem_filter] at hmem
  have := of_decide_eq_true hmem.2
  exact absurd this (Nat.not_lt.mpr hexp)

/-- Witness for has_and_getAll_on_expired_entry on a store holding one
entry that expired at 10, read at 10. -/
theorem has_and_getAll_on_expired_entry_witness :
    (JsMap.get "k" [("k", (⟨5, 10⟩ : ExpirableItem Nat))] = some ⟨5, 10⟩
      ∧ (⟨5, 10⟩ : ExpirableItem Nat).expiresAt ≤ 10)
    ∧ (InMemoryStorage.has (StoreState.mk 0 [("k", (⟨5, 10⟩ : ExpirableItem Nat))]) "k" = true
      ∧ (⟨5, 10⟩ : ExpirableItem Nat) ∉
          InMemoryStorageWithTTL.getAll (StoreState.mk 0 [("k", ⟨5, 10⟩)]) 10
      ∧ ("k", (⟨5, 10⟩ : ExpirableItem Nat)) ∈
          (StoreState.mk 0 [("k", (⟨5, 10⟩ : ExpirableItem Nat))]).data) :=
  ⟨⟨by decide, by decide⟩,
   has_and_getAll_on_expired_entry (StoreState.mk 0 [("k", ⟨5, 10⟩)]) "k" ⟨5, 10⟩ 10
     (by decide) (by decide)⟩

/-- C10: the two expiry paths emit different event sequences: get on a
present expired entry emits a delete event (via the internal delete call)
followed by an expire event for that key, whereas cleanup removes expired
entries directly from the backing map and emits exactly one expire event
per removed entry and no delete event. -/
theorem expiry_event_sequences {V : Type} (s s2 : InMemoryStorageWithTTL.TTLState V)
    (k : String) (item : ExpirableItem V) (now now2 : Nat)
    (hget : JsMap.get k s.data = some item)
    (hexp : item.expiresAt ≤ now) :
    (InMemoryStorageWithTTL.get s k now).2.2
      = [⟨StorageEventType.delete, k, none, now⟩,
         ⟨StorageEventType.expire, k, some (Sum.inl item.value), now⟩]
    ∧ (InMemoryStorageWithTTL.cleanup s2 now2).2.2
      = (s2.data.filter (fun p => decide (p.2.expiresAt ≤ now2))).map
          (fun p => ⟨StorageEventType.expire, p.1, some (Sum.inl p.2.value), now2⟩) := by
  constructor
  · have hhas : JsMap.has k s.data = true := by simp [JsMap.has, hget]
    simp [InMemoryStorageWithTTL.get, hget, hexp, InMemoryStorage.delete, hhas]
  · simp [InMemoryStorageWithTTL.cleanup, InMemoryStorageWithTTL.cleanupRun_eq]

/-- Witness for expiry_event_sequences: a one-entry store read at its
expiry instant, and a two-entry store swept with one entry expired. -/
theorem expiry_event_sequences_witness :
    (JsMap.get "k" [("k", (⟨5, 10⟩ : ExpirableItem Nat))] = some ⟨5, 10⟩
      ∧ (⟨5, 10⟩ : ExpirableItem Nat).expiresAt ≤ 10)
    ∧ ((InMemoryStorageWithTTL.get (StoreState.mk 0 [("k", (⟨5, 10⟩ : ExpirableItem Nat))]) "k" 10).2.2
        = [⟨StorageEventType.delete, "k", none, 10⟩,
           ⟨StorageEventType.expire, "k", some (Sum.inl 5), 10⟩]
      ∧ (InMemoryStorageWithTTL.cleanup
            (StoreState.mk 0 [("a", (⟨1, 3⟩ : ExpirableItem Nat)), ("b", ⟨2, 99⟩)]) 4).2.2
        = ([("a", (⟨1, 3⟩ : ExpirableItem Nat)), ("b", ⟨2, 99⟩)].filter
             (fun p => decide (p.2.expiresAt ≤ 4))).map
            (fun p => ⟨StorageEventType.expire, p.1, some (Sum.inl p.2.value), 4⟩)) :=
  ⟨⟨by decide, by decide⟩,
   expiry_event_sequences (StoreState.mk 0 [("k", ⟨5, 10⟩)])
     (StoreState.mk 0 [("a", ⟨1, 3⟩), ("b", ⟨2, 99⟩)]) "k" ⟨5, 10⟩ 10 4
     (by decide) (by decide)⟩

/-- C5: lazy expiry at read time: get on a present entry whose expiresAt
is at or before now deletes it immediately, fires exactly one expire
event for it, and returns not found; getValue reads through the same path
and returns not found with the same state and events; after the read the
key is gone from the backing map, so a later getAll or cleanup scan does
not see it and cleanup fires no second expire event for it. -/
theorem lazy_expiry_on_read {V : Type} (s : InMemoryStorageWithTTL.TTLState V)
    (k : String) (item : ExpirableItem V) (now now2 : Nat)
    (hnd : (s.data.map Prod.fst).Nodup)
    (hget : JsMap.get k s.data = some item)
    (hexp : item.expiresAt ≤ now) :
    (InMemoryStorageWithTTL.get s k now).1 = none
    ∧ JsMap.get k ((InMemoryStorageWithTTL.get s k now).2.1).data = none
    ∧ ((InMemoryStorageWithTTL.get s k now).2.2.filter
         (fun e => decide (e.type = StorageEventType.expire)))
        = [⟨StorageEventType.expire, k, some (Sum.inl item.value), now⟩]
    ∧ InMemoryStorageWithTTL.getValue s k now
        = (none, (InMemoryStorageWithTTL.get s k now).2.1,
           (InMemoryStorageWithTTL.get s k now).2.2)
    ∧ k ∉ (((InMemoryStorageWithTTL.get s k now).2.1).data.map Prod.fst)
    ∧ ((InMemoryStorageWithTTL.cleanup
          (InMemoryStorageWithTTL.get s k now).2.1 now2).2.2.filter
         (fun e => decide (e.key = k))) = [] := by
  have hhas : JsMap.has k s.data = true := by simp [JsMap.has, hget]
  have hrun : InMemoryStorageWithTTL.get s k now
      = (none, { s with data := JsMap.delete k s.data },
         [⟨StorageEventType.delete, k, none, now⟩,
          ⟨StorageEventType.expire, k, some (Sum.inl item.value), now⟩]) := by
    simp [InMemoryStorageWithTTL.get, hget, hexp, InMemoryStorage.delete, hhas]
  have hgone : JsMap.get k (JsMap.delete k s.data) = none :=
    JsMap.get_delete_self k hnd
  have hkeys : k ∉ ((JsMap.delete k s.data).map Prod.fst) :=
    (JsMap.get_eq_none_iff k _).mp hgone
  refine ⟨by rw [hrun], by rw [hrun]; exact hgone, by rw [hrun]; simp, ?_, ?_, ?_⟩
  · rw [InMemoryStorageWithTTL.getValue, hrun]
  · rw [hrun]
    exact hkeys
  · rw [hrun]
    simp only [InMemoryStorageWithTTL.cleanup, InMemoryStorageWithTTL.cleanupRun_eq]
    rw [List.filter_eq_nil_iff]
    intro e he
    simp only [List.mem_map, List.mem_filter] at he
    obtain ⟨p, ⟨hpmem, _⟩, rfl⟩ := he
    simp only [decide_eq_true_eq]
    intro hek
    have hp1 : p.1 ∈ (JsMap.delete k s.data).map Prod.fst :=
      List.mem_map_of_mem Prod.fst hpmem
    exact hkeys (hek ▸ hp1)

/-- Witness for lazy_expiry_on_read on a store with one live and one
expired entry, read at time 10 and swept at time 99. -/
theorem lazy_expiry_on_read_witness :
    ((([("k", (⟨5, 10⟩ : ExpirableItem Nat)), ("m", ⟨6, 99⟩)]).map Prod.fst).Nodup
      ∧ JsMap.get "k" [("k", (⟨5, 10⟩ : ExpirableItem Nat)), ("m", ⟨6, 99⟩)] = some ⟨5, 10⟩
      ∧ (⟨5, 10⟩ : ExpirableItem Nat).expiresAt ≤ 10)
    ∧ ((InMemoryStorageWithTTL.get
          (StoreState.mk 0 [("k", (⟨5, 10⟩ : ExpirableItem Nat)), ("m", ⟨6, 99⟩)]) "k" 10).1 = none
      ∧ JsMap.get "k" ((InMemoryStorageWithTTL.get
          (StoreState.mk 0 [("k", (⟨5, 10⟩ : ExpirableItem Nat)), ("m", ⟨6, 99⟩)]) "k" 10).2.1).data = none
      ∧ ((InMemoryStorageWithTTL.get
            (StoreState.mk 0 [("k", (⟨5, 10⟩ : ExpirableItem Nat)), ("m", ⟨6, 99⟩)]) "k" 10).2.2.filter
           (fun e => decide (e.type = StorageEventType.expire)))
          = [⟨StorageEventType.expire, "k", some (Sum.inl 5), 10⟩]
      ∧ InMemoryStorageWithTTL.getValue
            (StoreState.mk 0 [("k", (⟨5, 10⟩ : ExpirableItem Nat)), ("m", ⟨6, 99⟩)]) "k" 10
          = (none, (InMemoryStorageWithTTL.get
              (StoreState.mk 0 [("k", (⟨5, 10⟩ : ExpirableItem Nat)), ("m", ⟨6, 99⟩)]) "k" 10).2.1,
             (InMemoryStorageWithTTL.get
              (StoreState.mk 0 [("k", (⟨5, 10⟩ : ExpirableItem Nat)), ("m", ⟨6, 99⟩)]) "k" 10).2.2)
      ∧ "k" ∉ (((InMemoryStorageWithTTL.get
            (StoreState.mk 0 [("k", (⟨5, 10⟩ : ExpirableItem Nat)), ("m", ⟨6, 99⟩)]) "k" 10).2.1).data.map Prod.fst)
      ∧ ((InMemoryStorageWithTTL.cleanup
            (InMemoryStorageWithTTL.get
              (StoreState.mk 0 [("k", (⟨5, 10⟩ : ExpirableItem Nat)), ("m", ⟨6, 99⟩)]) "k" 10).2.1 99).2.2.filter
           (fun e => decide (e.key = "k"))) = []) :=
  ⟨⟨by decide, by decide, by decide⟩,
   lazy_expiry_on_read (StoreState.mk 0 [("k", ⟨5, 10⟩), ("m", ⟨6, 99⟩)]) "k" ⟨5, 10⟩ 10 99
     (by decide) (by decide) (by decide)⟩

/-- C3: for an API-prefixed request whose nonce header is absent or blank
after trimming, the guard throws MissingNonceError (HTTP status 400),
leaving the nonce store exactly as it was and emitting no storage event,
i.e. it rejects before performing any storage operation. -/
theorem missing_nonce_rejected_before_storage (ttl : Nat) (req : HttpRequest) (ip : String)
    (now : Nat) (s : NonceStoreState)
    (hapi : jsStartsWith req.path "/api" = true)
    (hmiss : req.nonceHeader = none ∨ ∃ n, req.nonceHeader = some n ∧ jsTrim n = "") :
    nonceCheckMiddleware ttl req ip now s
      = (GuardOutcome.threw NonceError.missingNonce, s, [])
    ∧ NonceError.statusCode NonceError.missingNonce = 400 := by
  refine ⟨?_, rfl⟩
  rcases hmiss with h | ⟨n, hn, htr⟩
  · simp [nonceCheckMiddleware, hapi, h]
  · simp [nonceCheckMiddleware, hapi, hn, htr]

/-- Witness for missing_nonce_rejected_before_storage: an API request
with no nonce header against a one-entry store. -/
theorem missing_nonce_rejected_before_storage_witness :
    (jsStartsWith (HttpRequest.mk "/api/v1/brokers" "GET" none).path "/api" = true
      ∧ ((HttpRequest.mk "/api/v1/brokers" "GET" none).nonceHeader = none
         ∨ ∃ n, (HttpRequest.mk "/api/v1/brokers" "GET" none).nonceHeader = some n
             ∧ jsTrim n = ""))
    ∧ (nonceCheckMiddleware 300000 (HttpRequest.mk "/api/v1/brokers" "GET" none) "9.9.9.9" 50
         (StoreState.mk 0 [("old", ⟨⟨⟨1, "/api/a", "GET", "ip"⟩, 60⟩, 60⟩)])
        = (GuardOutcome.threw NonceError.missingNonce,
           StoreState.mk 0 [("old", ⟨⟨⟨1, "/api/a", "GET", "ip"⟩, 60⟩, 60⟩)], [])
      ∧ NonceError.statusCode NonceError.missingNonce = 400) :=
  ⟨⟨by decide, Or.inl rfl⟩,
   missing_nonce_rejected_before_storage 300000 (HttpRequest.mk "/api/v1/brokers" "GET" none)
     "9.9.9.9" 50 (StoreState.mk 0 [("old", ⟨⟨⟨1, "/api/a", "GET", "ip"⟩, 60⟩, 60⟩)])
     (by decide) (Or.inl rfl)⟩

/-- C2: evaluation of the success path at a concrete request: the guard
defers to next() and uses a TTL equal to the validity window, but the
stored value under the nonce key is the metadata wrapped in an extra
ExpirableItem layer (the call site pre-wraps the value it hands to
setWithTTL), so getValue yields that once-wrapped record, not the bare
metadata record the declared storage interface promises. -/
theorem nonce_success_path_double_wraps_metadata :
    (nonceCheckMiddleware 300000 (HttpRequest.mk "/api/v1/brokers" "GET" (some "n1"))
        "1.2.3.4" 1000 (StoreState.mk 0 [])).1 = GuardOutcome.next
    ∧ (nonceCheckMiddleware 300000 (HttpRequest.mk "/api/v1/brokers" "GET" (some "n1"))
        "1.2.3.4" 1000 (StoreState.mk 0 [])).2.1.data
      = [("n1", ⟨⟨⟨1000, "/api/v1/brokers", "GET", "1.2.3.4"⟩, 301000⟩, 301000⟩)]
    ∧ (InMemoryStorageWithTTL.getValue
        (nonceCheckMiddleware 300000 (HttpRequest.mk "/api/v1/brokers" "GET" (some "n1"))
          "1.2.3.4" 1000 (StoreState.mk 0 [])).2.1 "n1" 1000).1
      = some ⟨⟨1000, "/api/v1/brokers", "GET", "1.2.3.4"⟩, 301000⟩ := by
  refine ⟨by decide, by decide, by decide⟩

/-- C7: middleware chain ordering and short-circuit: for the chain built
from [A, B] with terminal handler H, if A returns a response without
calling next() then the run returns that response with only A recorded,
for every B and H (so neither runs); if A and B both call next(), the run
records A, B, H, B-post, A-post in that order (H runs exactly once) and
the response unwinds through B then A, each transforming it; an exception
thrown by the terminal handler or by a middleware propagates to the
outermost caller untranslated. -/
theorem middleware_chain_ordering {Req Ctx Res Err : Type}
    (req : Req) (ctx : Ctx) (rA rH : Res) (fA fB : Res → Res) (e : Err)
    (B : Middleware Req Ctx (List String) Err Res)
    (H : Req → Ctx → List String → Except Err (Res × List String))
    (tr : List String) :
    createMiddlewareChain [shortCircuitMw rA "A", B] H req ctx tr
      = Except.ok (rA, tr ++ ["A"])
    ∧ createMiddlewareChain [passThroughMw "A" "A-post" fA, passThroughMw "B" "B-post" fB]
        (terminalOk rH "H") req ctx tr
      = (Except.ok (fA (fB rH), tr ++ ["A", "B", "H", "B-post", "A-post"])
          : Except Err (Res × List String))
    ∧ createMiddlewareChain [passThroughMw "A" "A-post" fA, passThroughMw "B" "B-post" fB]
        (terminalThrow e) req ctx tr
      = Except.error e
    ∧ createMiddlewareChain [passThroughMw "A" "A-post" fA, throwingMw e]
        (terminalOk rH "H") req ctx tr
      = Except.error e := by
  refine ⟨rfl, ?_, rfl, rfl⟩
  simp [createMiddlewareChain, dispatch, passThroughMw, terminalOk]

/-- C8: health path bypass: the server fetch handler answers a request to
the health path with the health JSON before the middleware chain (hence
before the nonce guard) can run, leaving the nonce store untouched
whatever the nonce header; and both guard variants skip a health-path
request entirely: withNonceCheck because of its explicit health check,
the nonce-check middleware because the health path is not API-prefixed. -/
theorem health_path_bypass {R : Type} (ttl now : Nat) (method ip : String)
    (hdr : Option String) (s : NonceStoreState)
    (chain : NonceStoreState → R × NonceStoreState) :
    serverFetch (HttpRequest.mk "/health" method hdr) now s chain
      = (ServeResp.healthJson now, s)
    ∧ withNonceCheck ttl (HttpRequest.mk "/health" method hdr) ip now s
      = (GuardOutcome.next, s, [])
    ∧ nonceCheckMiddleware ttl (HttpRequest.mk "/health" method hdr) ip now s
      = (GuardOutcome.next, s, []) :=
  ⟨rfl, rfl, rfl⟩

/-- C1: nonce uniqueness within the validity window: once the guard
accepts a nonce n on an API-prefixed request at time t0, a second
API-prefixed request carrying the same n before the TTL elapses is
rejected with DuplicateNonceError and the stored entry is not overwritten
(the store is returned untouched); after the TTL has elapsed and either a
read (getValue) or a cleanup sweep has purged the entry, the same n is
accepted again, and on the read path it is re-stored with fresh metadata
and a fresh expiry. -/
theorem nonce_uniqueness_within_window
    (ttl : Nat) (req1 req2 req3 : HttpRequest) (n ip1 ip2 ip3 : String)
    (t0 t1 t2 : Nat) (s0 s1 : NonceStoreState) (evs1 : List NonceEvent)
    (hnd : (s0.data.map Prod.fst).Nodup)
    (hapi1 : jsStartsWith req1.path "/api" = true) (hn1 : req1.nonceHeader = some n)
    (hapi2 : jsStartsWith req2.path "/api" = true) (hn2 : req2.nonceHeader = some n)
    (hapi3 : jsStartsWith req3.path "/api" = true) (hn3 : req3.nonceHeader = some n)
    (hrun1 : nonceCheckMiddleware ttl req1 ip1 t0 s0 = (GuardOutcome.next, s1, evs1))
    (ht1 : t1 < t0 + ttl) (ht2 : t0 + ttl ≤ t2) :
    nonceCheckMiddleware ttl req2 ip2 t1 s1
      = (GuardOutcome.threw (NonceError.duplicateNonce n), s1, [])
    ∧ JsMap.get n ((InMemoryStorageWithTTL.getValue s1 n t2).2.1).data = none
    ∧ (nonceCheckMiddleware ttl req3 ip3 t2
         (InMemoryStorageWithTTL.getValue s1 n t2).2.1).1 = GuardOutcome.next
    ∧ JsMap.get n ((nonceCheckMiddleware ttl req3 ip3 t2
         (InMemoryStorageWithTTL.getValue s1 n t2).2.1).2.1.data)
      = some ⟨⟨⟨t2, req3.path, req3.method, ip3⟩, t2 + ttl⟩, t2 + ttl⟩
    ∧ JsMap.get n ((InMemoryStorageWithTTL.cleanup s1 t2).2.1).data = none
    ∧ (nonceCheckMiddleware ttl req3 ip3 t2
         (InMemoryStorageWithTTL.cleanup s1 t2).2.1).1 = GuardOutcome.next := by
  by_cases htr : jsTrim n = ""
  · exfalso
    simp [nonceCheckMiddleware, hapi1, hn1, htr] at hrun1
  by_cases hhas : InMemoryStorage.has s0 n = true
  · exfalso
    simp [nonceCheckMiddleware, hapi1, hn1, htr, hhas] at hrun1
  have hs1 : s1 = (InMemoryStorageWithTTL.setWithTTL s0 n
      ⟨⟨t0, req1.path, req1.method, ip1⟩, t0 + ttl⟩ ttl t0).1 := by
    simp [nonceCheckMiddleware, hapi1, hn1, htr, hhas] at hrun1
    exact (congrArg Prod.fst hrun1).symm
  have hget1 : JsMap.get n s1.data
      = some ⟨⟨⟨t0, req1.path, req1.method, ip1⟩, t0 + ttl⟩, t0 + ttl⟩ := by
    rw [hs1]
    simp only [InMemoryStorageWithTTL.setWithTTL, InMemoryStorageWithTTL.set]
    exact InMemoryStorage.set_get_self _ _ _ _ _
  have hnd1 : (s1.data.map Prod.fst).Nodup := by
    rw [hs1]
    simp only [InMemoryStorageWithTTL.setWithTTL, InMemoryStorageWithTTL.set]
    exact InMemoryStorage.set_nodup _ _ _ _ _ hnd
  have hhas1 : InMemoryStorage.has s1 n = true := by
    simp [InMemoryStorage.has, JsMap.has, hget1]
  have hrun2 : InMemoryStorageWithTTL.getValue s1 n t2
      = (none, { s1 with data := JsMap.delete n s1.data },
         [⟨StorageEventType.delete, n, none, t2⟩,
          ⟨StorageEventType.expire, n,
           some (Sum.inl ⟨⟨t0, req1.path, req1.method, ip1⟩, t0 + ttl⟩), t2⟩]) := by
    simp [InMemoryStorageWithTTL.getValue, InMemoryStorageWithTTL.get, hget1, ht2,
      InMemoryStorage.delete, JsMap.has]
  have hgone : JsMap.get n (JsMap.delete n s1.data) = none :=
    JsMap.get_delete_self n hnd1
  have hhas2 : InMemoryStorage.has { s1 with data := JsMap.delete n s1.data } n = false := by
    simp [InMemoryStorage.has, JsMap.has, hgone]
  have hcleanData : (InMemoryStorageWithTTL.cleanup s1 t2).2.1.data
      = s1.data.filter (fun p => decide (t2 < p.2.expiresAt)) := by
    simp [InMemoryStorageWithTTL.cleanup, InMemoryStorageWithTTL.cleanupRun_eq]
  have hgone2 : JsMap.get n ((InMemoryStorageWithTTL.cleanup s1 t2).2.1).data = none := by
    rw [hcleanData, JsMap.get_eq_none_iff]
    intro hmem
    simp only [List.mem_map] at hmem
    obtain ⟨p, hp, hpk⟩ := hmem
    rw [List.mem_filter] at hp
    have hlt := of_decide_eq_true hp.2
    have hpmem : (n, p.2) ∈ s1.data := by
      have : (p.1, p.2) ∈ s1.data := by simpa using hp.1
      rw [hpk] at this
      exact this
    have hpv := JsMap.get_eq_of_mem hnd1 hpmem
    rw [hget1] at hpv
    have hv2 := Option.some.inj hpv
    rw [← hv2] at hlt
    exact absurd hlt (Nat.not_lt.mpr ht2)
  have hhas3 : InMemoryStorage.has (InMemoryStorageWithTTL.cleanup s1 t2).2.1 n = false := by
    simp [InMemoryStorage.has, JsMap.has, hgone2]
  refine ⟨?_, ?_, ?_, ?_, hgone2, ?_⟩
  · simp [nonceCheckMiddleware, hapi2, hn2, htr, hhas1]
  · rw [hrun2]
    exact hgone
  · rw [hrun2]
    simp [nonceCheckMiddleware, hapi3, hn3, htr, hhas2]
  · rw [hrun2]
    simp only [nonceCheckMiddleware, hapi3, hn3, htr, hhas2, Bool.not_true,
      if_false, ite_false, Bool.false_eq_true]
    simp only [InMemoryStorageWithTTL.setWithTTL, InMemoryStorageWithTTL.set]
    exact InMemoryStorage.set_get_self _ _ _ _ _
  · simp [nonceCheckMiddleware, hapi3, hn3, htr, hhas3]

/-- Witness for nonce_uniqueness_within_window: nonce n1 accepted at
time 0 with TTL 100 into an empty store; a replay at time 50 is rejected
with the store untouched; at time 100 a read purges the entry and the
same nonce is accepted and re-stored with expiry 200. -/
theorem nonce_uniqueness_within_window_witness :
    ((((StoreState.mk 0 ([] : List (String × ExpirableItem NonceStoreVal))).data.map
        Prod.fst).Nodup)
      ∧ jsStartsWith (HttpRequest.mk "/api/x" "GET" (some "n1")).path "/api" = true
      ∧ (HttpRequest.mk "/api/x" "GET" (some "n1")).nonceHeader = some "n1"
      ∧ nonceCheckMiddleware 100 (HttpRequest.mk "/api/x" "GET" (some "n1")) "a" 0
          (StoreState.mk 0 [])
        = (GuardOutcome.next,
           StoreState.mk 0 [("n1", ⟨⟨⟨0, "/api/x", "GET", "a"⟩, 100⟩, 100⟩)],
           [⟨StorageEventType.set, "n1",
             some (Sum.inr ⟨⟨⟨0, "/api/x", "GET", "a"⟩, 100⟩, 100⟩), 0⟩])
      ∧ 50 < 0 + 100 ∧ 0 + 100 ≤ 100)
    ∧ (nonceCheckMiddleware 100 (HttpRequest.mk "/api/x" "GET" (some "n1")) "b" 50
         (StoreState.mk 0 [("n1", ⟨⟨⟨0, "/api/x", "GET", "a"⟩, 100⟩, 100⟩)])
        = (GuardOutcome.threw (NonceError.duplicateNonce "n1"),
           StoreState.mk 0 [("n1", ⟨⟨⟨0, "/api/x", "GET", "a"⟩, 100⟩, 100⟩)], [])
      ∧ JsMap.get "n1" ((InMemoryStorageWithTTL.getValue
           (StoreState.mk 0 [("n1", ⟨⟨⟨0, "/api/x", "GET", "a"⟩, 100⟩, 100⟩)] : NonceStoreState)
           "n1" 100).2.1).data = none
      ∧ (nonceCheckMiddleware 100 (HttpRequest.mk "/api/x" "GET" (some "n1")) "c" 100
           (InMemoryStorageWithTTL.getValue
             (StoreState.mk 0 [("n1", ⟨⟨⟨0, "/api/x", "GET", "a"⟩, 100⟩, 100⟩)] : NonceStoreState)
             "n1" 100).2.1).1 = GuardOutcome.next
      ∧ JsMap.get "n1" ((nonceCheckMiddleware 100 (HttpRequest.mk "/api/x" "GET" (some "n1"))
           "c" 100
           (InMemoryStorageWithTTL.getValue
             (StoreState.mk 0 [("n1", ⟨⟨⟨0, "/api/x", "GET", "a"⟩, 100⟩, 100⟩)] : NonceStoreState)
             "n1" 100).2.1).2.1.data)
        = some ⟨⟨⟨100, (HttpRequest.mk "/api/x" "GET" (some "n1")).path,
            (HttpRequest.mk "/api/x" "GET" (some "n1")).method, "c"⟩, 100 + 100⟩, 100 + 100⟩
      ∧ JsMap.get "n1" ((InMemoryStorageWithTTL.cleanup
           (StoreState.mk 0 [("n1", ⟨⟨⟨0, "/api/x", "GET", "a"⟩, 100⟩, 100⟩)] : NonceStoreState)
           100).2.1).data = none
      ∧ (nonceCheckMiddleware 100 (HttpRequest.mk "/api/x" "GET" (some "n1")) "c" 100
           (InMemoryStorageWithTTL.cleanup
             (StoreState.mk 0 [("n1", ⟨⟨⟨0, "/api/x", "GET", "a"⟩, 100⟩, 100⟩)] : NonceStoreState)
             100).2.1).1 = GuardOutcome.next) :=
  ⟨⟨by decide, by decide, rfl, by decide, by decide, by decide⟩,
   nonce_uniqueness_within_window 100
     (HttpRequest.mk "/api/x" "GET" (some "n1"))
     (HttpRequest.mk "/api/x" "GET" (some "n1"))
     (HttpRequest.mk "/api/x" "GET" (some "n1"))
     "n1" "a" "b" "c" 0 50 100
     (StoreState.mk 0 [])
     (StoreState.mk 0 [("n1", ⟨⟨⟨0, "/api/x", "GET", "a"⟩, 100⟩, 100⟩)])
     [⟨StorageEventType.set, "n1",
       some (Sum.inr ⟨⟨⟨0, "/api/x", "GET", "a"⟩, 100⟩, 100⟩), 0⟩]
     (by decide) (by decide) rfl (by decide) rfl (by decide) rfl
     (by decide) (by decide) (by decide)⟩

end IdxMiddleware
